import Mathlib

/-!
A shallow embedding of the EzGemini-Live client logic: the live-session
hook `useGeminiLive` (connection lifecycle, gapless audio scheduling,
interruption handling, microphone gating), the turn-based chat hook
`useGeminiChat`, the media-start request counter of the main application
component, and the identity provider's sign-out path.

Wall-clock times and audio-buffer durations are modelled as rationals;
browser resource handles (audio contexts, nodes, streams, timers, the
session promise) are modelled as numeric identifiers wrapped in `Option`,
`none` standing for a `null` ref.  Each scheduled output source keeps its
scheduled start time, its buffer duration, whether `stop()` was called on
it, and whether it is still a member of the `audioSourcesRef` set; the
`sources` field of the hook state is the append-ordered archive of every
source ever created, the set being those with `inSet = true`.
-/

namespace EzGemini

/-- Playback status values, from `types.ts` (`AudioStatus`). -/
inductive AudioStatus where
  | inactive
  | listening
  | speaking
  | processing
deriving DecidableEq, Repr

/-- One hardware media track (`MediaStreamTrack`): its `enabled` flag and
whether `stop()` has been called on it. -/
structure MTrack where
  enabled : Bool
  stopped : Bool
deriving DecidableEq, Repr

/-- A media stream: its list of (audio) tracks. -/
structure MStream where
  tracks : List MTrack
deriving DecidableEq, Repr

/-- One scheduled output audio source (`AudioBufferSourceNode`): the start
time passed to `source.start`, the decoded buffer's duration, whether
`stop()` was called, and whether it is still in the tracking set. -/
structure Source where
  start : ℚ
  dur : ℚ
  stopped : Bool
  inSet : Bool
deriving DecidableEq, Repr

/-- The mutable state held by `useGeminiLive` (its React state plus every
ref), from `src/hooks/useGeminiLive.ts`. -/
structure HookState where
  isConnected : Bool
  isStreaming : Bool
  isMicOn : Bool
  status : AudioStatus
  error : Option String
  inputAudioContext : Option Nat
  outputAudioContext : Option Nat
  scriptProcessor : Option Nat
  inputSource : Option Nat
  audioStream : Option MStream
  isMicOnRef : Bool
  nextStartTime : ℚ
  sources : List Source
  outputGainNode : Option Nat
  sessionPromise : Option Nat
  videoInterval : Option Nat
  sentFrames : List Nat
deriving DecidableEq, Repr

/-- The initial hook state: the `useState` / `useRef` initialisers of
`useGeminiLive` (mic on, status inactive, every ref null). -/
def initHookState : HookState where
  isConnected := false
  isStreaming := false
  isMicOn := true
  status := AudioStatus.inactive
  error := none
  inputAudioContext := none
  outputAudioContext := none
  scriptProcessor := none
  inputSource := none
  audioStream := none
  isMicOnRef := true
  nextStartTime := 0
  sources := []
  outputGainNode := none
  sessionPromise := none
  videoInterval := none
  sentFrames := []

/-- `source.stop()` applied to a source still in the tracking set, leaving
sources already out of the set untouched; used by the interruption branch
and by `disconnect` (`audioSourcesRef.current.forEach(s => s.stop())`
followed by `clear()`). -/
def stopInSet (s : Source) : Source :=
  if s.inSet then { s with stopped := true, inSet := false } else s

/-- `disconnect` from `useGeminiLive.ts` (lines 35-72): null out the
processing node, input source node, media stream and input context, stop
and clear every tracked output source, close and null the output context,
clear the video timer, reset the flags and status, and drop the session
promise.  Note: `outputGainNodeRef` is not touched by the source. -/
def disconnect (st : HookState) : HookState :=
  { st with
    scriptProcessor := none
    inputSource := none
    audioStream := none
    inputAudioContext := none
    sources := st.sources.map stopInSet
    outputAudioContext := none
    videoInterval := none
    isConnected := false
    isStreaming := false
    status := AudioStatus.inactive
    sessionPromise := none }

/-- `toggleMic`: flip the mic flag (ref and state) and set `enabled` on
every audio track of the held stream to the new value. -/
def toggleMic (st : HookState) : HookState :=
  { st with
    isMicOnRef := !st.isMicOnRef
    isMicOn := !st.isMicOnRef
    audioStream := st.audioStream.map
      (fun s => ⟨s.tracks.map (fun t => { t with enabled := !st.isMicOnRef })⟩) }

/-- The `onaudioprocess` capture callback: when the mic flag is off the
frame is dropped by an early return; otherwise the frame is converted and
forwarded over the session promise when one is held.  Forwarded frames are
recorded in `sentFrames`. -/
def onaudioprocess (st : HookState) (frame : Nat) : HookState :=
  if !st.isMicOnRef then st
  else if st.sessionPromise.isSome then
    { st with sentFrames := st.sentFrames ++ [frame] }
  else st

/-- The audio part of one `onmessage` invocation, guarded by the presence
of the output context and gain node.  `dec` is the decode outcome: the
buffer's duration on success, `none` when `decodeAudioData` throws (the
handler catches and only logs).  The status update and the
`max(nextStartTime, currentTime)` cursor update precede the decode. -/
def onAudioPart (st : HookState) (now : ℚ) (dec : Option ℚ) : HookState :=
  if st.outputAudioContext.isSome && st.outputGainNode.isSome then
    match dec with
    | some d =>
        { st with
          status := AudioStatus.speaking
          nextStartTime := max st.nextStartTime now + d
          sources := st.sources ++ [⟨max st.nextStartTime now, d, false, true⟩] }
    | none =>
        { st with
          status := AudioStatus.speaking
          nextStartTime := max st.nextStartTime now }
  else st

/-- The interruption branch of `onmessage`: stop every tracked source,
clear the set, zero the cursor, report listening. -/
def onInterrupted (st : HookState) : HookState :=
  { st with
    sources := st.sources.map stopInSet
    nextStartTime := 0
    status := AudioStatus.listening }

/-- One `LiveServerMessage` as far as the handler inspects it:
`audio = some dec` means a base64 audio part was present with decode
outcome `dec`; `interrupted` mirrors `serverContent.interrupted`. -/
structure ServerMessage where
  audio : Option (Option ℚ)
  interrupted : Bool
deriving DecidableEq, Repr

/-- The audio branch of one `onmessage` invocation: run `onAudioPart`
when a base64 audio part is present. -/
def onmessageAudio (st : HookState) (now : ℚ) (m : ServerMessage) : HookState :=
  match m.audio with
  | some dec => onAudioPart st now dec
  | none => st

/-- The whole `onmessage` callback: the audio branch, then the
interruption branch, in source order. -/
def onmessage (st : HookState) (now : ℚ) (m : ServerMessage) : HookState :=
  if m.interrupted then onInterrupted (onmessageAudio st now m)
  else onmessageAudio st now m

/-- After the `ended` listener's set deletion: when the set became empty,
report listening (`if (audioSourcesRef.current.size === 0)`). -/
def endedUpdate (st : HookState) (srcs : List Source) : HookState :=
  if srcs.all (fun s => !s.inSet) then
    { st with sources := srcs, status := AudioStatus.listening }
  else
    { st with sources := srcs }

/-- The `ended` listener of a scheduled source (by archive index): remove
it from the tracking set, and when the set becomes empty report
listening. -/
def onended (st : HookState) (i : Nat) : HookState :=
  if h : i < st.sources.length then
    endedUpdate st (st.sources.set i { st.sources.get ⟨i, h⟩ with inSet := false })
  else st

/-- The `onclose` callback: clear the flags and report inactive. -/
def onclose (st : HookState) : HookState :=
  { st with
    isConnected := false
    isStreaming := false
    status := AudioStatus.inactive }

/-- The `onerror` callback: record the error, clear the flags, then force
a full teardown through `disconnect`. -/
def onerror (st : HookState) (e : String) : HookState :=
  disconnect { st with error := some e, isConnected := false, isStreaming := false }

/-- The prefix of `connect` before any awaited step: tear down any prior
session, clear the error, report listening. -/
def connectStart (st : HookState) : HookState :=
  { disconnect st with error := none, status := AudioStatus.listening }

/-- The happy path of `connect` through the `onopen` callback: contexts,
gain node, mic stream (its `k` tracks enabled per the current mic flag),
session promise, capture nodes, and the connected/streaming flags. -/
def connectOpened (st : HookState) (k : Nat) : HookState :=
  { st with
    inputAudioContext := some 0
    outputAudioContext := some 0
    outputGainNode := some 0
    audioStream := some ⟨List.replicate k ⟨st.isMicOnRef, false⟩⟩
    sessionPromise := some 0
    inputSource := some 0
    scriptProcessor := some 0
    isConnected := true
    isStreaming := true }

/-- A failed `connect` (catch block / rejected session promise): record
the error, report inactive, tear down. -/
def connectFail (st : HookState) (e : String) : HookState :=
  disconnect { st with error := some e, status := AudioStatus.inactive }

/-- Every entry point into the hook's state, as one event alphabet. -/
inductive HookEvent where
  | msg (m : ServerMessage)
  | ended (i : Nat)
  | disconnectEv
  | connectStartEv
  | connectOpenedEv (k : Nat)
  | connectFailEv (e : String)
  | closeEv
  | errorEv (e : String)
  | toggleMicEv
  | audioFrame (frame : Nat)
deriving DecidableEq, Repr

/-- Dispatch one event at wall-clock time `now` (only the message handler
reads the clock, through `ctx.currentTime`). -/
def hookStep (st : HookState) (now : ℚ) (ev : HookEvent) : HookState :=
  match ev with
  | .msg m => onmessage st now m
  | .ended i => onended st i
  | .disconnectEv => disconnect st
  | .connectStartEv => connectStart st
  | .connectOpenedEv k => connectOpened st k
  | .connectFailEv e => connectFail st e
  | .closeEv => onclose st
  | .errorEv e => onerror st e
  | .toggleMicEv => toggleMic st
  | .audioFrame f => onaudioprocess st f

/-- Run a timed event trace through the hook. -/
def hookRun (st : HookState) (evs : List (ℚ × HookEvent)) : HookState :=
  evs.foldl (fun s p => hookStep s p.1 p.2) st

/-! The turn-based chat hook `useGeminiChat` (src/unnamed/part_000). -/

/-- Model-tier selector, from `ChatModelType`. -/
inductive ChatModelType where
  | fast
  | smart
  | thinking
deriving DecidableEq, Repr

/-- A chat role. -/
inductive ChatRole where
  | user
  | model
deriving DecidableEq, Repr

/-- One transcript entry (`Message`): the optional `isThinking` field is
kept as an `Option`, `none` meaning the field was not written. -/
structure ChatMessage where
  role : ChatRole
  text : String
  isThinking : Option Bool
deriving DecidableEq, Repr

/-- The state held by `useGeminiChat`. -/
structure ChatState where
  messages : List ChatMessage
  isLoading : Bool
  error : Option String
deriving DecidableEq, Repr

/-- The backend model identifier selected for a tier. -/
def modelForTier : ChatModelType → String
  | ChatModelType.fast => "gemini-2.5-flash-lite"
  | ChatModelType.smart => "gemini-3-pro-preview"
  | ChatModelType.thinking => "gemini-3-pro-preview"

/-- The network outcome of the single `generateContent` round-trip:
`Except.ok rt` carries `response.text` (absent or empty strings fall back
to the literal placeholder), `Except.error e` a thrown error message. -/
def ChatOutcome := Except String (Option String)

/-- The reply text appended on success:
`responseText || "No response generated."`. -/
def replyText (rt : Option String) : String :=
  match rt with
  | some s => if s.isEmpty then "No response generated." else s
  | none => "No response generated."

/-- The synchronous head of `sendMessage(text, type)`: set loading, clear
the error, optimistically append the user entry — all before the network
round-trip completes. -/
def sendMessageStart (st : ChatState) (text : String) : ChatState :=
  { st with
    isLoading := true
    error := none
    messages := st.messages ++ [⟨ChatRole.user, text, none⟩] }

/-- The continuation of `sendMessage` once the round-trip's outcome is
known: on success append the reply tagged with
`isThinking: type === 'thinking'`; on error record the error and append
the literal placeholder, whose object literal carries no `isThinking`
field; in both cases clear loading (`finally`). -/
def sendMessageFinish (st : ChatState) (type : ChatModelType)
    (outcome : ChatOutcome) : ChatState :=
  match outcome with
  | Except.ok rt =>
      { st with
        messages := st.messages ++
          [⟨ChatRole.model, replyText rt, some (type = ChatModelType.thinking : Bool)⟩]
        isLoading := false }
  | Except.error e =>
      { st with
        error := some (if e.isEmpty then "Failed to generate response" else e)
        messages := st.messages ++
          [⟨ChatRole.model, "Error: Could not generate response.", none⟩]
        isLoading := false }

/-- One whole `sendMessage` call with round-trip outcome `outcome`. -/
def sendMessage (st : ChatState) (text : String) (type : ChatModelType)
    (outcome : ChatOutcome) : ChatState :=
  sendMessageFinish (sendMessageStart st text) type outcome

/-! The media-start request counter of `App.tsx` (`startMedia`,
lines 255-364). -/

/-- The slice of the application component state that `startMedia`'s
supersession logic touches: the request counter ref, the active stream
ref, and the loading flag. -/
structure MediaState where
  counter : Nat
  activeStream : Option MStream
  isMediaLoading : Bool
deriving DecidableEq, Repr

/-- `stream.getTracks().forEach(t => t.stop())`. -/
def stopAllTracks (s : MStream) : MStream :=
  ⟨s.tracks.map (fun t => { t with stopped := true })⟩

/-- The synchronous head of `startMedia`:
`const requestId = ++startMediaRequestRef.current` plus
`setIsMediaLoading(true)`; returns the new state and the request's id. -/
def beginMedia (st : MediaState) : MediaState × Nat :=
  ({ st with counter := st.counter + 1, isMediaLoading := true }, st.counter + 1)

/-- Resumption of a `startMedia` call after its device acquisition
resolved with stream `s`: when a newer request has bumped the counter the
acquired stream's tracks are all stopped and the state is left untouched
(early return, and the `finally` guard skips `setIsMediaLoading(false)`);
otherwise the previous active stream is stopped and `s` becomes active.
Returns the state and the final condition of the acquired stream. -/
def resolveMedia (st : MediaState) (requestId : Nat) (s : MStream) :
    MediaState × MStream :=
  if requestId ≠ st.counter then
    (st, stopAllTracks s)
  else
    ({ st with activeStream := some s, isMediaLoading := false }, s)

/-! The identity provider (`AuthProvider`, src/unnamed/part_001). -/

/-- The fields of a signed-in identity that `signOut` inspects. -/
structure AuthUser where
  isAnonymous : Bool
  email : Option String
deriving DecidableEq, Repr

/-- The guest sentinel address. -/
def guestEmail : String := "guest@preview.app"

/-- The locally fabricated guest identity, as built by
`continueAsGuest`. -/
def guestUser : AuthUser where
  isAnonymous := true
  email := some guestEmail

/-- Whether an identity matches the guest check in `signOut`
(`user?.isAnonymous && user?.email === 'guest@preview.app'`). -/
def guestShaped (u : AuthUser) : Bool :=
  u.isAnonymous && u.email = some guestEmail

/-- The provider state: whether the external auth handle initialised
(module-level, fixed for the tab's lifetime) and the current user. -/
structure AuthState where
  authInit : Bool
  user : Option AuthUser
deriving DecidableEq, Repr

/-- `signOut`: the guest sentinel just clears local state and returns;
otherwise the provider's sign-out runs when the handle exists, then local
state is cleared.  The returned flag records whether a network sign-out
call was attempted. -/
def signOut (st : AuthState) : AuthState × Bool :=
  match st.user with
  | some u =>
      if guestShaped u then ({ st with user := none }, false)
      else ({ st with user := none }, st.authInit)
  | none => ({ st with user := none }, st.authInit)

/-- `continueAsGuest`: install the fabricated guest identity. -/
def continueAsGuest (st : AuthState) : AuthState :=
  { st with user := some guestUser }

/-- The provider's entry points: an auth-state callback from the external
provider (only subscribed when the handle initialised, and the app's
sign-in flows produce no anonymous users), guest sign-in, sign-out. -/
inductive AuthEvent where
  | authChanged (u : Option AuthUser)
  | continueAsGuestEv
  | signOutEv
deriving DecidableEq, Repr

/-- Dispatch one provider event. -/
def authStep (st : AuthState) : AuthEvent → AuthState
  | AuthEvent.authChanged u =>
      if st.authInit then { st with user := u } else st
  | AuthEvent.continueAsGuestEv => continueAsGuest st
  | AuthEvent.signOutEv => (signOut st).1

/-- Run a provider event trace. -/
def authRun (st : AuthState) (evs : List AuthEvent) : AuthState :=
  evs.foldl authStep st

/-- The external provider never delivers an anonymous user through
`onAuthStateChanged` for this app (no anonymous sign-in flow exists). -/
def AuthTraceOK (evs : List AuthEvent) : Prop :=
  ∀ u : AuthUser, AuthEvent.authChanged (some u) ∈ evs → u.isAnonymous = false

/-! Temporal scaffolding for the live hook: wall-clock validity of event
traces and the playback predicate. -/

/-- A server message carrying only synthesized audio with decode outcome
`dec`. -/
def audioMsg (dec : Option ℚ) : ServerMessage := ⟨some dec, false⟩

/-- A pure interruption message. -/
def interruptMsg : ServerMessage := ⟨none, true⟩

/-- Source `s` is audible at wall-clock time `u`: `stop()` was never
called on it and `u` lies inside its scheduled play window. -/
def playsAt (s : Source) (u : ℚ) : Prop :=
  s.stopped = false ∧ s.start ≤ u ∧ u < s.start + s.dur

instance (s : Source) (u : ℚ) : Decidable (playsAt s u) := by
  unfold playsAt; infer_instance

/-- Environment constraint on one event fired at time `t`: an `ended`
listener only fires for a source whose playback has actually finished,
unless the source was already stopped. -/
def endedOK (st : HookState) (t : ℚ) (ev : HookEvent) : Prop :=
  match ev with
  | HookEvent.ended i =>
      ∀ s : Source, st.sources.get? i = some s → s.stopped = false →
        s.inSet = true → s.start + s.dur ≤ t
  | _ => True

/-- A timed event trace is valid from state `st` at time `t` when event
times never decrease and every `ended` event satisfies `endedOK` at the
state it fires in. -/
inductive ValidFrom : HookState → ℚ → List (ℚ × HookEvent) → Prop where
  | nil (st : HookState) (t : ℚ) : ValidFrom st t []
  | cons (st : HookState) (t t' : ℚ) (ev : HookEvent)
      (evs : List (ℚ × HookEvent)) :
      t ≤ t' → endedOK st t' ev →
      ValidFrom (hookStep st t' ev) t' evs →
      ValidFrom st t ((t', ev) :: evs)

/-- The time of the last event of a trace, or `t` for the empty trace. -/
def lastTime (t : ℚ) (evs : List (ℚ × HookEvent)) : ℚ :=
  evs.foldl (fun _ p => p.1) t

/-- The physical invariant behind barge-in correctness: any source that
left the tracking set without being stopped has finished playing by
time `t`. -/
def SourcesDone (st : HookState) (t : ℚ) : Prop :=
  ∀ s ∈ st.sources, s.inSet = false → s.stopped = false → s.start + s.dur ≤ t

/-! Helper lemmas. -/

lemma stopInSet_inSet (s : Source) : (stopInSet s).inSet = false := by
  cases h : s.inSet <;> simp [stopInSet, h]

lemma stopInSet_stopped_of_inSet (s : Source) (h : s.inSet = true) :
    (stopInSet s).stopped = true := by
  simp [stopInSet, h]

lemma stopInSet_eq_of_not_inSet (s : Source) (h : s.inSet = false) :
    stopInSet s = s := by
  simp [stopInSet, h]

lemma stopInSet_idem (s : Source) : stopInSet (stopInSet s) = stopInSet s := by
  cases h : s.inSet <;> simp [stopInSet, h]

lemma map_stopInSet_idem (l : List Source) :
    (l.map stopInSet).map stopInSet = l.map stopInSet := by
  rw [List.map_map]
  exact List.map_congr_left (fun a _ => stopInSet_idem a)

lemma sourcesDone_mono {st : HookState} {t t' : ℚ}
    (h : SourcesDone st t) (htt : t ≤ t') : SourcesDone st t' :=
  fun s hs h1 h2 => le_trans (h s hs h1 h2) htt

lemma doneL_map_stopInSet {l : List Source} {t : ℚ}
    (h : ∀ s ∈ l, s.inSet = false → s.stopped = false → s.start + s.dur ≤ t) :
    ∀ s ∈ l.map stopInSet, s.inSet = false → s.stopped = false →
      s.start + s.dur ≤ t := by
  intro s hs h1 h2
  rcases List.mem_map.mp hs with ⟨a, ha, rfl⟩
  by_cases hin : a.inSet = true
  · exact absurd h2 (by simp [stopInSet_stopped_of_inSet a hin])
  · rw [stopInSet_eq_of_not_inSet a (Bool.not_eq_true _ ▸ hin)] at h1 h2 ⊢
    exact h a ha h1 h2

lemma doneL_append {l : List Source} {x : Source} {t : ℚ}
    (h : ∀ s ∈ l, s.inSet = false → s.stopped = false → s.start + s.dur ≤ t)
    (hx : x.inSet = true) :
    ∀ s ∈ l ++ [x], s.inSet = false → s.stopped = false →
      s.start + s.dur ≤ t := by
  intro s hs h1 h2
  rcases List.mem_append.mp hs with hmem | hmem
  · exact h s hmem h1 h2
  · rw [List.mem_singleton.mp hmem] at h1
    rw [hx] at h1
    cases h1

lemma sourcesDone_onAudioPart {st : HookState} {t now : ℚ} {dec : Option ℚ}
    (h : SourcesDone st t) : SourcesDone (onAudioPart st now dec) t := by
  unfold onAudioPart
  split
  · cases dec with
    | some d =>
        intro s hs h1 h2
        exact doneL_append h rfl s hs h1 h2
    | none => exact h
  · exact h

lemma sourcesDone_onmessageAudio {st : HookState} {t now : ℚ}
    {m : ServerMessage} (h : SourcesDone st t) :
    SourcesDone (onmessageAudio st now m) t := by
  unfold onmessageAudio
  cases m.audio with
  | none => exact h
  | some dec => exact sourcesDone_onAudioPart h

/-- `SourcesDone` survives one hook event fired at its own time. -/
lemma sourcesDone_hookStep {st : HookState} {t : ℚ} (ev : HookEvent)
    (hok : endedOK st t ev) (h : SourcesDone st t) :
    SourcesDone (hookStep st t ev) t := by
  cases ev with
  | msg m =>
      show SourcesDone (onmessage st t m) t
      unfold onmessage
      split
      · exact doneL_map_stopInSet (sourcesDone_onmessageAudio h)
      · exact sourcesDone_onmessageAudio h
  | ended i =>
      show SourcesDone (onended st i) t
      unfold onended
      split
      · rename_i hi
        unfold endedUpdate
        split
        all_goals
          intro s hs h1 h2
          rcases List.mem_or_eq_of_mem_set hs with hmem | heq
        · exact h s hmem h1 h2
        · subst heq
          by_cases hin : (st.sources.get ⟨i, hi⟩).inSet = true
          · exact hok (st.sources.get ⟨i, hi⟩) (List.get?_eq_get hi) h2 hin
          · exact h (st.sources.get ⟨i, hi⟩) (st.sources.get_mem i hi)
              (Bool.not_eq_true _ ▸ hin) h2
        · exact h s hmem h1 h2
        · subst heq
          by_cases hin : (st.sources.get ⟨i, hi⟩).inSet = true
          · exact hok (st.sources.get ⟨i, hi⟩) (List.get?_eq_get hi) h2 hin
          · exact h (st.sources.get ⟨i, hi⟩) (st.sources.get_mem i hi)
              (Bool.not_eq_true _ ▸ hin) h2
      · exact h
  | disconnectEv => exact doneL_map_stopInSet h
  | connectStartEv => exact doneL_map_stopInSet h
  | connectOpenedEv k => exact h
  | connectFailEv e => exact doneL_map_stopInSet h
  | closeEv => exact h
  | errorEv e => exact doneL_map_stopInSet h
  | toggleMicEv => exact h
  | audioFrame f =>
      show SourcesDone (onaudioprocess st f) t
      unfold onaudioprocess
      split
      · exact h
      · split <;> exact h

lemma lastTime_cons (t t' : ℚ) (ev : HookEvent) (evs : List (ℚ × HookEvent)) :
    lastTime t ((t', ev) :: evs) = lastTime t' evs := rfl

/-- A freshly connected session: `connect` ran to its `onopen` callback
with a one-track microphone stream. -/
def readyState : HookState :=
  hookStep (hookStep initHookState 0 HookEvent.connectStartEv) 0
    (HookEvent.connectOpenedEv 1)

lemma onAudioPart_eq_some {st : HookState} (now d : ℚ)
    (hctx : st.outputAudioContext.isSome = true)
    (hg : st.outputGainNode.isSome = true) :
    onAudioPart st now (some d) =
      { st with
        status := AudioStatus.speaking
        nextStartTime := max st.nextStartTime now + d
        sources := st.sources ++ [⟨max st.nextStartTime now, d, false, true⟩] } := by
  unfold onAudioPart
  simp [hctx, hg]

lemma onAudioPart_eq_none {st : HookState} (now : ℚ)
    (hctx : st.outputAudioContext.isSome = true)
    (hg : st.outputGainNode.isSome = true) :
    onAudioPart st now none =
      { st with
        status := AudioStatus.speaking
        nextStartTime := max st.nextStartTime now } := by
  unfold onAudioPart
  simp [hctx, hg]

/-- A pure audio-message trace: one message per list entry, carrying its
arrival time and decode outcome. -/
def audioEvs (msgs : List (ℚ × Option ℚ)) : List (ℚ × HookEvent) :=
  msgs.map (fun p => (p.1, HookEvent.msg (audioMsg p.2)))

/-- The back-to-back scheduling invariant carried through a run of audio
messages: adjacent scheduled sources are packed (`start + dur ≤ start`
of the next, and starts non-decreasing), the cursor dominates the last
source's end, and durations stay non-negative. -/
lemma audioRun_chain (msgs : List (ℚ × Option ℚ)) :
    ∀ st : HookState,
      st.outputAudioContext.isSome = true →
      st.outputGainNode.isSome = true →
      (∀ p ∈ msgs, 0 ≤ p.2.getD 0) →
      List.Chain' (fun a b : Source => a.start + a.dur ≤ b.start ∧ a.start ≤ b.start)
        st.sources →
      (∀ s : Source, st.sources.getLast? = some s →
        s.start + s.dur ≤ st.nextStartTime) →
      (∀ s ∈ st.sources, 0 ≤ s.dur) →
      List.Chain' (fun a b : Source => a.start + a.dur ≤ b.start ∧ a.start ≤ b.start)
        (hookRun st (audioEvs msgs)).sources := by
  induction msgs with
  | nil => intro st _ _ _ hch _ _; exact hch
  | cons p ps ih =>
      intro st hctx hg hd hch hlast hdur
      have hstep : hookRun st (audioEvs (p :: ps))
          = hookRun (onAudioPart st p.1 p.2) (audioEvs ps) := rfl
      rw [hstep]
      cases hdec : p.2 with
      | none =>
          rw [onAudioPart_eq_none p.1 hctx hg]
          refine ih _ hctx hg (fun q hq => hd q (List.mem_cons_of_mem p hq)) hch
            ?_ hdur
          intro s hs
          exact le_trans (hlast s hs) (le_max_left _ _)
      | some d =>
          rw [onAudioPart_eq_some p.1 d hctx hg]
          have hd0 : 0 ≤ d := by
            have := hd p (List.mem_cons_self p ps)
            rw [hdec] at this
            simpa using this
          refine ih _ hctx hg (fun q hq => hd q (List.mem_cons_of_mem p hq))
            ?_ ?_ ?_
          · rw [List.chain'_append]
            refine ⟨hch, List.chain'_singleton _, ?_⟩
            intro a ha y hy
            have ha' : st.sources.getLast? = some a := ha
            have h1 : a.start + a.dur ≤ st.nextStartTime := hlast a ha'
            have h2 : st.nextStartTime ≤ max st.nextStartTime p.1 := le_max_left _ _
            have hda : 0 ≤ a.dur := hdur a (List.mem_of_mem_getLast? ha)
            have hy' : y = ⟨max st.nextStartTime p.1, d, false, true⟩ := by
              simpa using hy.symm
            subst hy'
            constructor
            · exact le_trans h1 h2
            · have : a.start ≤ a.start + a.dur := by linarith
              exact le_trans this (le_trans h1 h2)
          · intro s hs
            rw [List.getLast?_concat] at hs
            have hs' : s = ⟨max st.nextStartTime p.1, d, false, true⟩ :=
              (Option.some.inj hs).symm
            subst hs'
            exact le_refl _
          · intro s hs
            rcases List.mem_append.mp hs with hmem | hmem
            · exact hdur s hmem
            · rw [List.mem_singleton.mp hmem]
              exact hd0

/-- The audio branch either keeps the status or reports `speaking`. -/
lemma onAudioPart_status (st : HookState) (now : ℚ) (dec : Option ℚ) :
    (onAudioPart st now dec).status = st.status ∨
    (onAudioPart st now dec).status ≠ AudioStatus.processing := by
  unfold onAudioPart
  split
  · cases dec with
    | some d => right; simp
    | none => right; simp
  · left; rfl

lemma onmessageAudio_status (st : HookState) (now : ℚ) (m : ServerMessage) :
    (onmessageAudio st now m).status = st.status ∨
    (onmessageAudio st now m).status ≠ AudioStatus.processing := by
  unfold onmessageAudio
  split
  · exact onAudioPart_status st now _
  · left; rfl

/-- The message handler either keeps the status or moves it to
`speaking`/`listening`. -/
lemma onmessage_status (st : HookState) (now : ℚ) (m : ServerMessage) :
    (onmessage st now m).status = st.status ∨
    (onmessage st now m).status ≠ AudioStatus.processing := by
  unfold onmessage
  split
  · right
    simp [onInterrupted]
  · exact onmessageAudio_status st now m

/-- The `ended` listener either keeps the status or reports
`listening`. -/
lemma onended_status (st : HookState) (i : Nat) :
    (onended st i).status = st.status ∨
    (onended st i).status ≠ AudioStatus.processing := by
  unfold onended
  split
  · unfold endedUpdate
    split
    · right; simp
    · left; rfl
  · left; rfl

/-- The capture callback never touches the status. -/
lemma onaudioprocess_status (st : HookState) (f : Nat) :
    (onaudioprocess st f).status = st.status := by
  unfold onaudioprocess
  split
  · rfl
  · split <;> rfl

/-- One hook event either leaves the status alone or moves it to a value
other than `processing`. -/
lemma hookStep_status (st : HookState) (now : ℚ) (ev : HookEvent) :
    (hookStep st now ev).status = st.status ∨
    (hookStep st now ev).status ≠ AudioStatus.processing := by
  cases ev with
  | msg m => exact onmessage_status st now m
  | ended i => exact onended_status st i
  | disconnectEv => right; simp [hookStep, disconnect]
  | connectStartEv => right; simp [hookStep, connectStart, disconnect]
  | connectOpenedEv k => left; rfl
  | connectFailEv e => right; simp [hookStep, connectFail, disconnect]
  | closeEv => right; simp [hookStep, onclose]
  | errorEv e => right; simp [hookStep, onerror, disconnect]
  | toggleMicEv => left; rfl
  | audioFrame f => left; exact onaudioprocess_status st f

/-- Along any run, a status other than `processing` can never become
`processing`. -/
lemma hookRun_status (evs : List (ℚ × HookEvent)) (st : HookState)
    (h : st.status ≠ AudioStatus.processing) :
    (hookRun st evs).status ≠ AudioStatus.processing := by
  induction evs generalizing st with
  | nil => exact h
  | cons p ps ih =>
      refine ih (hookStep st p.1 p.2) ?_
      rcases hookStep_status st p.1 p.2 with heq | hne
      · rw [heq]; exact h
      · exact hne

/-- `authStep` never changes whether the auth handle initialised. -/
lemma authStep_authInit (st : AuthState) (e : AuthEvent) :
    (authStep st e).authInit = st.authInit := by
  cases e with
  | authChanged u =>
      show (if st.authInit = true then { st with user := u } else st).authInit
          = st.authInit
      split <;> rfl
  | continueAsGuestEv => rfl
  | signOutEv =>
      show (signOut st).1.authInit = st.authInit
      unfold signOut
      split
      · split <;> rfl
      · rfl

/-- `signOut` always clears the identity. -/
lemma signOut_user (st : AuthState) : (signOut st).1.user = none := by
  unfold signOut
  split
  · split <;> rfl
  · rfl

/-- Reachability invariant of the provider: a non-guest-shaped identity
can only be present when the auth handle initialised (the only source of
such identities is the provider's auth-state stream, which is only
subscribed when the handle exists). -/
lemma authRun_inv (evs : List AuthEvent) :
    ∀ st : AuthState,
      (∀ u : AuthUser, st.user = some u → guestShaped u = false →
        st.authInit = true) →
      ∀ u : AuthUser, (authRun st evs).user = some u → guestShaped u = false →
        (authRun st evs).authInit = true := by
  induction evs with
  | nil => intro st h; exact h
  | cons e es ih =>
      intro st h
      refine ih (authStep st e) ?_
      intro u hu hg
      rw [authStep_authInit]
      cases e with
      | authChanged v =>
          by_cases hin : st.authInit = true
          · exact hin
          · have hfix : authStep st (AuthEvent.authChanged v) = st := by
              show (if st.authInit = true then { st with user := v } else st) = st
              simp [hin]
            rw [hfix] at hu
            exact h u hu hg
      | continueAsGuestEv =>
          have hu' : some guestUser = some u := hu
          have hgu : guestShaped u = true := by
            rw [← Option.some.inj hu']
            decide
          rw [hgu] at hg
          cases hg
      | signOutEv =>
          have hu' : (none : Option AuthUser) = some u := by
            rw [← signOut_user st]; exact hu
          cases hu'

/-- Along any valid trace, `SourcesDone` holds at the trace's final
time. -/
lemma validFrom_sourcesDone {evs : List (ℚ × HookEvent)} {st : HookState}
    {t : ℚ} (hv : ValidFrom st t evs) (h : SourcesDone st t) :
    SourcesDone (hookRun st evs) (lastTime t evs) := by
  induction hv with
  | nil st t => simpa [hookRun, lastTime] using h
  | cons st t t' ev evs htt hok hv ih =>
      rw [lastTime_cons]
      exact ih (sourcesDone_hookStep ev hok (sourcesDone_mono h htt))

/-! The claim theorems. -/

/-- C9: from the initial state, no sequence of hook events — messages,
ended listeners, connect/disconnect lifecycle, errors, mic toggles,
capture frames — ever makes the live hook report the declared-but-unused
status `processing`. -/
theorem live_status_never_processing (evs : List (ℚ × HookEvent)) :
    (hookRun initHookState evs).status ≠ AudioStatus.processing :=
  hookRun_status evs initHookState (by decide)

/-- C10: a synthesized-audio message whose decode throws is skipped: the
handler catches the error, adds no source, advances the cursor only by
the `max` with the clock (not by any buffer duration), leaves previously
scheduled sources untouched and the connection/streaming flags and
session unchanged. -/
theorem decode_failure_skips_chunk (st : HookState) (now : ℚ)
    (hctx : st.outputAudioContext.isSome = true)
    (hg : st.outputGainNode.isSome = true) :
    (hookStep st now (HookEvent.msg (audioMsg none))).sources = st.sources ∧
    (hookStep st now (HookEvent.msg (audioMsg none))).nextStartTime
        = max st.nextStartTime now ∧
    (hookStep st now (HookEvent.msg (audioMsg none))).isConnected
        = st.isConnected ∧
    (hookStep st now (HookEvent.msg (audioMsg none))).isStreaming
        = st.isStreaming ∧
    (hookStep st now (HookEvent.msg (audioMsg none))).sessionPromise
        = st.sessionPromise := by
  have hstep : hookStep st now (HookEvent.msg (audioMsg none))
      = onAudioPart st now none := rfl
  rw [hstep, onAudioPart_eq_none now hctx hg]
  exact ⟨rfl, rfl, rfl, rfl, rfl⟩

theorem decode_failure_skips_chunk_witness :
    readyState.outputAudioContext.isSome = true ∧
    readyState.outputGainNode.isSome = true ∧
    ((hookStep readyState 3 (HookEvent.msg (audioMsg none))).sources
        = readyState.sources ∧
      (hookStep readyState 3 (HookEvent.msg (audioMsg none))).nextStartTime
        = max readyState.nextStartTime 3 ∧
      (hookStep readyState 3 (HookEvent.msg (audioMsg none))).isConnected
        = readyState.isConnected ∧
      (hookStep readyState 3 (HookEvent.msg (audioMsg none))).isStreaming
        = readyState.isStreaming ∧
      (hookStep readyState 3 (HookEvent.msg (audioMsg none))).sessionPromise
        = readyState.sessionPromise) :=
  ⟨by decide, by decide,
    decode_failure_skips_chunk readyState 3 (by decide) (by decide)⟩

/-- C6: while the mic flag is off, the capture callback drops the frame
at its first line — the state (in particular the record of forwarded
frames) is completely unchanged, so nothing is converted, forwarded, or
queued. -/
theorem muted_frames_dropped (st : HookState) (frame : Nat)
    (h : st.isMicOnRef = false) :
    onaudioprocess st frame = st := by
  unfold onaudioprocess
  simp [h]

theorem muted_frames_dropped_witness :
    ({ initHookState with isMicOnRef := false } : HookState).isMicOnRef
        = false ∧
    onaudioprocess { initHookState with isMicOnRef := false } 7
        = { initHookState with isMicOnRef := false } :=
  ⟨rfl, muted_frames_dropped { initHookState with isMicOnRef := false } 7 rfl⟩

/-- C7: `toggleMic` twice restores the mic flag (both the ref and the
mirrored state, which move in lockstep), and a single call never touches
any connection state: flags, status, session promise, contexts, nodes,
timer, scheduled sources, cursor, or which stream is held (only the
tracks' `enabled` bits change — their stopped state survives). -/
theorem toggleMic_involution (st : HookState)
    (hsync : st.isMicOn = st.isMicOnRef) :
    (toggleMic (toggleMic st)).isMicOnRef = st.isMicOnRef ∧
    (toggleMic (toggleMic st)).isMicOn = st.isMicOn ∧
    (toggleMic st).isConnected = st.isConnected ∧
    (toggleMic st).isStreaming = st.isStreaming ∧
    (toggleMic st).status = st.status ∧
    (toggleMic st).sessionPromise = st.sessionPromise ∧
    (toggleMic st).inputAudioContext = st.inputAudioContext ∧
    (toggleMic st).outputAudioContext = st.outputAudioContext ∧
    (toggleMic st).scriptProcessor = st.scriptProcessor ∧
    (toggleMic st).inputSource = st.inputSource ∧
    (toggleMic st).outputGainNode = st.outputGainNode ∧
    (toggleMic st).videoInterval = st.videoInterval ∧
    (toggleMic st).audioStream.isSome = st.audioStream.isSome ∧
    (toggleMic st).audioStream.map (fun s => s.tracks.map (fun t => t.stopped))
        = st.audioStream.map (fun s => s.tracks.map (fun t => t.stopped)) ∧
    (toggleMic st).sources = st.sources ∧
    (toggleMic st).nextStartTime = st.nextStartTime := by
  refine ⟨?_, ?_, rfl, rfl, rfl, rfl, rfl, rfl, rfl, rfl, rfl, rfl, ?_, ?_,
    rfl, rfl⟩
  · simp [toggleMic]
  · simp [toggleMic, hsync]
  · cases h : st.audioStream <;> simp [toggleMic, h]
  · cases h : st.audioStream with
    | none => simp [toggleMic, h]
    | some s =>
        simp only [toggleMic, h, Option.map_some, Option.map_some', List.map_map]
        rfl

theorem toggleMic_involution_witness :
    ({ initHookState with audioStream := some ⟨[⟨true, false⟩]⟩ }
        : HookState).isMicOn
      = ({ initHookState with audioStream := some ⟨[⟨true, false⟩]⟩ }
        : HookState).isMicOnRef ∧
    (toggleMic (toggleMic
        { initHookState with audioStream := some ⟨[⟨true, false⟩]⟩ })).isMicOnRef
      = ({ initHookState with audioStream := some ⟨[⟨true, false⟩]⟩ }
        : HookState).isMicOnRef :=
  ⟨rfl,
    (toggleMic_involution
      { initHookState with audioStream := some ⟨[⟨true, false⟩]⟩ } rfl).1⟩

/-- C3 counterexample: after a connect reaches its open callback, the
output gain node ref is set, and `disconnect` leaves it set — so not
every acquired resource handle ends up null. -/
theorem disconnect_gain_node_survives :
    (disconnect readyState).outputGainNode ≠ none := by decide

/-- C3 (amended): `disconnect` is idempotent and safe on any state; it
nulls the processing node, input source node, media stream, both audio
contexts, the video timer and the session promise, empties the tracked
source set, clears the flags and reports inactive — but the output gain
node reference is left as it was. -/
theorem disconnect_idempotent_resources (st : HookState) :
    disconnect (disconnect st) = disconnect st ∧
    (disconnect st).scriptProcessor = none ∧
    (disconnect st).inputSource = none ∧
    (disconnect st).audioStream = none ∧
    (disconnect st).inputAudioContext = none ∧
    (disconnect st).outputAudioContext = none ∧
    (disconnect st).videoInterval = none ∧
    (disconnect st).sessionPromise = none ∧
    (disconnect st).sources.all (fun s => !s.inSet) = true ∧
    (disconnect st).isConnected = false ∧
    (disconnect st).isStreaming = false ∧
    (disconnect st).status = AudioStatus.inactive ∧
    (disconnect st).outputGainNode = st.outputGainNode := by
  refine ⟨?_, rfl, rfl, rfl, rfl, rfl, rfl, rfl, ?_, rfl, rfl, rfl, rfl⟩
  · simp only [disconnect, map_stopInSet_idem]
  · rw [List.all_eq_true]
    intro s hs
    rcases List.mem_map.mp hs with ⟨a, _, rfl⟩
    simp [stopInSet_inSet]

/-- C4: a media-start request that resolves after a newer request bumped
the counter stops every track of the stream it acquired, leaves the whole
application state (in particular the active stream ref) untouched, and
the counter mechanism indeed brands every request with a fresh id. -/
theorem superseded_media_request_discarded (st : MediaState)
    (requestId : Nat) (s : MStream) (hsup : requestId < st.counter) :
    resolveMedia st requestId s = (st, stopAllTracks s) ∧
    (resolveMedia st requestId s).1.activeStream = st.activeStream ∧
    ((resolveMedia st requestId s).2).tracks.all (fun t => t.stopped)
        = true ∧
    ∀ st2 : MediaState, (beginMedia st2).2 = st2.counter + 1 ∧
      (beginMedia st2).1.counter = st2.counter + 1 := by
  have hne : requestId ≠ st.counter := Nat.ne_of_lt hsup
  have hres : resolveMedia st requestId s = (st, stopAllTracks s) := by
    simp [resolveMedia, hne]
  refine ⟨hres, ?_, ?_, fun st2 => ⟨rfl, rfl⟩⟩
  · rw [hres]
  · rw [hres]
    rw [List.all_eq_true]
    intro t ht
    rcases List.mem_map.mp ht with ⟨a, _, rfl⟩
    rfl

theorem superseded_media_request_discarded_witness :
    (1 : Nat) < (⟨2, none, true⟩ : MediaState).counter ∧
    resolveMedia ⟨2, none, true⟩ 1 ⟨[⟨true, false⟩, ⟨false, false⟩]⟩
        = (⟨2, none, true⟩, stopAllTracks ⟨[⟨true, false⟩, ⟨false, false⟩]⟩) ∧
    ((resolveMedia ⟨2, none, true⟩ 1
        ⟨[⟨true, false⟩, ⟨false, false⟩]⟩).2).tracks.all (fun t => t.stopped)
        = true :=
  ⟨by decide,
    (superseded_media_request_discarded ⟨2, none, true⟩ 1
      ⟨[⟨true, false⟩, ⟨false, false⟩]⟩ (by decide)).1,
    (superseded_media_request_discarded ⟨2, none, true⟩ 1
      ⟨[⟨true, false⟩, ⟨false, false⟩]⟩ (by decide)).2.2.1⟩

/-- C5 counterexample: a failed round-trip on the reasoning tier appends
the placeholder with no `isThinking` tag at all, so the failure entry is
not tagged true even though the reasoning tier produced it — refuting
"in either case tagged ... true exactly when tier is the reasoning
tier". -/
theorem failed_thinking_reply_untagged :
    (sendMessage ⟨[], false, none⟩ "Hi" ChatModelType.thinking
        (Except.error "boom")).messages
      = [⟨ChatRole.user, "Hi", none⟩,
         ⟨ChatRole.model, "Error: Could not generate response.", none⟩] ∧
    ((sendMessage ⟨[], false, none⟩ "Hi" ChatModelType.thinking
        (Except.error "boom")).messages.getLast?).map
          (fun m => m.isThinking) ≠ some (some true) := by
  constructor
  · rfl
  · decide

/-- C5 (amended): `sendMessage` appends the user entry before the
round-trip completes, then exactly one model entry: on success the reply
text tagged `isThinking` true exactly when the tier is the reasoning
tier, on failure the literal placeholder carrying no tag; in particular
"Hello" on the low-latency tier yields exactly the two entries
{user, "Hello"} and {model, reply-text} (tagged false). -/
theorem sendMessage_transcript (st : ChatState) (text : String)
    (type : ChatModelType) (outcome : ChatOutcome) :
    (sendMessageStart st text).messages
        = st.messages ++ [⟨ChatRole.user, text, none⟩] ∧
    (sendMessage st text type outcome).messages
        = st.messages ++ [⟨ChatRole.user, text, none⟩] ++
          [match outcome with
           | Except.ok rt =>
              ⟨ChatRole.model, replyText rt,
                some (type = ChatModelType.thinking : Bool)⟩
           | Except.error _ =>
              ⟨ChatRole.model, "Error: Could not generate response.", none⟩] ∧
    (sendMessage ⟨[], false, none⟩ "Hello" ChatModelType.fast
        (Except.ok (some "reply-text"))).messages
        = [⟨ChatRole.user, "Hello", none⟩,
           ⟨ChatRole.model, "reply-text", some false⟩] := by
  refine ⟨rfl, ?_, by decide⟩
  cases outcome with
  | ok rt => rfl
  | error e => rfl

/-- C8: along any provider trace from an empty identity, sign-out on the
fabricated guest identity (recognised by the sentinel check) clears local
state without any network call, while sign-out on a non-guest identity
clears local state and does reach the provider's sign-out (a non-guest
identity is only reachable when the auth handle initialised); guest
sign-in followed immediately by sign-out also makes no network call. -/
theorem guest_signout_no_network (b : Bool) (evs : List AuthEvent) :
    (∀ u : AuthUser, (authRun ⟨b, none⟩ evs).user = some u →
        guestShaped u = true →
        signOut (authRun ⟨b, none⟩ evs)
          = ({ authRun ⟨b, none⟩ evs with user := none }, false)) ∧
    (∀ u : AuthUser, (authRun ⟨b, none⟩ evs).user = some u →
        guestShaped u = false →
        signOut (authRun ⟨b, none⟩ evs)
          = ({ authRun ⟨b, none⟩ evs with user := none }, true)) ∧
    signOut (continueAsGuest (authRun ⟨b, none⟩ evs))
        = ({ authRun ⟨b, none⟩ evs with user := none }, false) := by
  refine ⟨?_, ?_, ?_⟩
  · intro u hu hg
    unfold signOut
    rw [hu]
    simp [hg]
  · intro u hu hg
    have hinit : (authRun ⟨b, none⟩ evs).authInit = true :=
      authRun_inv evs ⟨b, none⟩ (fun u' hu' _ => Option.noConfusion hu') u hu hg
    unfold signOut
    rw [hu]
    simp [hg, hinit]
  · rfl

theorem guest_signout_no_network_witness :
    (authRun ⟨true, none⟩
        [AuthEvent.authChanged (some ⟨false, some "ada@example.com"⟩)]).user
      = some ⟨false, some "ada@example.com"⟩ ∧
    guestShaped ⟨false, some "ada@example.com"⟩ = false ∧
    signOut (authRun ⟨true, none⟩
        [AuthEvent.authChanged (some ⟨false, some "ada@example.com"⟩)])
      = ({ authRun ⟨true, none⟩
            [AuthEvent.authChanged (some ⟨false, some "ada@example.com"⟩)]
            with user := none }, true) :=
  ⟨by decide, by decide,
    (guest_signout_no_network true
        [AuthEvent.authChanged (some ⟨false, some "ada@example.com"⟩)]).2.1
      ⟨false, some "ada@example.com"⟩ (by decide) (by decide)⟩

/-- C1: every decoded buffer is scheduled at
`max(next-free-playback-time, now)` and the cursor then advances by its
duration; consequently, over any sequence of audio messages handled from
a fresh connection — whatever the arrival clocks and with decode failures
interleaved — the scheduled sources are packed back-to-back: each start
is at least the previous start plus its duration, and starts are
non-decreasing. -/
theorem audio_scheduling_gapless :
    (∀ (st : HookState) (now d : ℚ),
        st.outputAudioContext.isSome = true →
        st.outputGainNode.isSome = true →
        (hookStep st now (HookEvent.msg (audioMsg (some d)))).sources
            = st.sources ++ [⟨max st.nextStartTime now, d, false, true⟩] ∧
        (hookStep st now (HookEvent.msg (audioMsg (some d)))).nextStartTime
            = max st.nextStartTime now + d) ∧
    (∀ msgs : List (ℚ × Option ℚ),
        (∀ p ∈ msgs, 0 ≤ p.2.getD 0) →
        List.Chain' (fun a b : Source => a.start + a.dur ≤ b.start)
            (hookRun readyState (audioEvs msgs)).sources ∧
        List.Chain' (fun a b : Source => a.start ≤ b.start)
            (hookRun readyState (audioEvs msgs)).sources) := by
  constructor
  · intro st now d hctx hg
    have hstep : hookStep st now (HookEvent.msg (audioMsg (some d)))
        = onAudioPart st now (some d) := rfl
    rw [hstep, onAudioPart_eq_some now d hctx hg]
    exact ⟨rfl, rfl⟩
  · intro msgs hd
    have h0 : List.Chain' (fun a b : Source =>
        a.start + a.dur ≤ b.start ∧ a.start ≤ b.start) readyState.sources :=
      List.chain'_nil
    have h1 : ∀ s : Source, readyState.sources.getLast? = some s →
        s.start + s.dur ≤ readyState.nextStartTime := by
      intro s hs
      exact Option.noConfusion (show (none : Option Source) = some s from hs)
    have h2 : ∀ s ∈ readyState.sources, (0 : ℚ) ≤ s.dur := by
      intro s hs
      exact absurd (show s ∈ ([] : List Source) from hs) (List.not_mem_nil s)
    have hch := audioRun_chain msgs readyState (by decide) (by decide) hd h0
      h1 h2
    exact ⟨hch.imp (fun a b h => h.1), hch.imp (fun a b h => h.2)⟩

theorem audio_scheduling_gapless_witness :
    (readyState.outputAudioContext.isSome = true ∧
      readyState.outputGainNode.isSome = true ∧
      ((hookStep readyState 0 (HookEvent.msg (audioMsg (some 1)))).sources
          = readyState.sources
            ++ [⟨max readyState.nextStartTime 0, 1, false, true⟩] ∧
        (hookStep readyState 0
            (HookEvent.msg (audioMsg (some 1)))).nextStartTime
          = max readyState.nextStartTime 0 + 1)) ∧
    ((∀ p ∈ [((0 : ℚ), some (2 : ℚ)), (9, none), (4, some 3)],
        0 ≤ p.2.getD 0) ∧
      (List.Chain' (fun a b : Source => a.start + a.dur ≤ b.start)
          (hookRun readyState
            (audioEvs [((0 : ℚ), some (2 : ℚ)), (9, none),
              (4, some 3)])).sources ∧
        List.Chain' (fun a b : Source => a.start ≤ b.start)
          (hookRun readyState
            (audioEvs [((0 : ℚ), some (2 : ℚ)), (9, none),
              (4, some 3)])).sources)) :=
  ⟨⟨by decide, by decide,
      audio_scheduling_gapless.1 readyState 0 1 (by decide) (by decide)⟩,
    ⟨by decide,
      audio_scheduling_gapless.2
        [((0 : ℚ), some (2 : ℚ)), (9, none), (4, some 3)] (by decide)⟩⟩

/-- C2: after any valid trace from the initial state, a server
interruption at time `tI` stops every source still in the tracking set,
empties the set, zeroes the cursor, reports listening — and no source
that existed before the interruption is audible at any time from `tI`
on. -/
theorem interruption_discards_playback (evs : List (ℚ × HookEvent))
    (tI : ℚ) (hv : ValidFrom initHookState 0 evs)
    (ht : lastTime 0 evs ≤ tI) :
    (hookStep (hookRun initHookState evs) tI
        (HookEvent.msg interruptMsg)).sources
      = (hookRun initHookState evs).sources.map stopInSet ∧
    (∀ (i : Nat) (s : Source),
        (hookRun initHookState evs).sources.get? i = some s →
        s.inSet = true →
        (hookStep (hookRun initHookState evs) tI
            (HookEvent.msg interruptMsg)).sources.get? i
          = some { s with stopped := true, inSet := false }) ∧
    ((hookStep (hookRun initHookState evs) tI
        (HookEvent.msg interruptMsg)).sources.all (fun s => !s.inSet))
      = true ∧
    (hookStep (hookRun initHookState evs) tI
        (HookEvent.msg interruptMsg)).nextStartTime = 0 ∧
    (hookStep (hookRun initHookState evs) tI
        (HookEvent.msg interruptMsg)).status = AudioStatus.listening ∧
    (∀ s ∈ (hookStep (hookRun initHookState evs) tI
        (HookEvent.msg interruptMsg)).sources,
      ∀ u : ℚ, tI ≤ u → ¬ playsAt s u) := by
  have hstep : hookStep (hookRun initHookState evs) tI
      (HookEvent.msg interruptMsg)
      = onInterrupted (hookRun initHookState evs) := rfl
  have hdone : SourcesDone (hookRun initHookState evs) tI := by
    refine sourcesDone_mono (validFrom_sourcesDone hv ?_) ht
    intro s hs _ _
    exact absurd (show s ∈ ([] : List Source) from hs) (List.not_mem_nil s)
  rw [hstep]
  refine ⟨rfl, ?_, ?_, rfl, rfl, ?_⟩
  · intro i s hget hin
    show ((hookRun initHookState evs).sources.map stopInSet).get? i = _
    rw [List.get?_map, hget]
    simp [stopInSet, hin]
  · rw [List.all_eq_true]
    intro s hs
    rcases List.mem_map.mp hs with ⟨a, _, rfl⟩
    simp [stopInSet_inSet]
  · intro s hs u hu hplay
    rcases List.mem_map.mp hs with ⟨a, ha, rfl⟩
    rcases hplay with ⟨hstop, hlo, hhi⟩
    by_cases hin : a.inSet = true
    · rw [stopInSet_stopped_of_inSet a hin] at hstop
      cases hstop
    · have ha' : stopInSet a = a :=
        stopInSet_eq_of_not_inSet a (Bool.not_eq_true _ ▸ hin)
      rw [ha'] at hstop hhi
      have hend : a.start + a.dur ≤ tI :=
        hdone a ha (Bool.not_eq_true _ ▸ hin) hstop
      exact absurd hhi (not_lt.mpr (le_trans hend hu))

/-- A concrete one-buffer session used to instantiate the interruption
theorem. -/
def demoTrace : List (ℚ × HookEvent) :=
  [((0 : ℚ), HookEvent.msg (audioMsg (some 2)))]

theorem interruption_discards_playback_witness :
    ValidFrom initHookState 0 demoTrace ∧
    lastTime 0 demoTrace ≤ 1 ∧
    ((hookStep (hookRun initHookState demoTrace) 1
        (HookEvent.msg interruptMsg)).sources
      = (hookRun initHookState demoTrace).sources.map stopInSet ∧
    (∀ (i : Nat) (s : Source),
        (hookRun initHookState demoTrace).sources.get? i = some s →
        s.inSet = true →
        (hookStep (hookRun initHookState demoTrace) 1
            (HookEvent.msg interruptMsg)).sources.get? i
          = some { s with stopped := true, inSet := false }) ∧
    ((hookStep (hookRun initHookState demoTrace) 1
        (HookEvent.msg interruptMsg)).sources.all (fun s => !s.inSet))
      = true ∧
    (hookStep (hookRun initHookState demoTrace) 1
        (HookEvent.msg interruptMsg)).nextStartTime = 0 ∧
    (hookStep (hookRun initHookState demoTrace) 1
        (HookEvent.msg interruptMsg)).status = AudioStatus.listening ∧
    (∀ s ∈ (hookStep (hookRun initHookState demoTrace) 1
        (HookEvent.msg interruptMsg)).sources,
      ∀ u : ℚ, (1 : ℚ) ≤ u → ¬ playsAt s u)) := by
  have hv : ValidFrom initHookState 0 demoTrace :=
    ValidFrom.cons _ _ _ _ _ (le_refl 0) True.intro (ValidFrom.nil _ _)
  exact ⟨hv, by decide, interruption_discards_playback demoTrace 1 hv
    (by decide)⟩

end EzGemini
